import Mathlib

/-!
Verification of the real-time keypoint stabilization and repetition-counting
pipeline of the pose-correct-pro repository.

The embedding mirrors `src/pose/smoothing.ts` (class `KeypointSmoother`) and
`src/pose/PoseBackend.ts` (function `angleBetween`, class `RepCounter`).

Modelling conventions:
* JavaScript numbers are modelled by an arbitrary linear ordered field `α`
  (instantiated at `ℚ` for executable checks and at `ℝ` for the
  trigonometric geometry).  Exact field arithmetic stands in for IEEE
  doubles; none of the verified properties depend on rounding.
* A JavaScript number that may be NaN is modelled as `Option α`, with
  `none` playing the role of NaN: arithmetic propagates `none`, and every
  ordered comparison against `none` is false, exactly as NaN behaves.
* The mutable `Map` of the smoother is an association list, the mutable
  class fields are threaded explicitly, and `Date.now()` becomes an
  explicit `now : ℤ` argument (milliseconds).
-/

/-- Structure `Keypoint` of `PoseBackend.ts`: `{ x; y; score?; name? }`. -/
structure Keypoint (α : Type) where
  x : α
  y : α
  score : Option α
  name : Option String
deriving DecidableEq

/-- Structure `Pose` of `PoseBackend.ts`: `{ keypoints; score? }`. -/
structure Pose (α : Type) where
  keypoints : List (Keypoint α)
  score : Option α
deriving DecidableEq

section JSNum

variable {α : Type} [LinearOrderedField α]

/-- Addition of possibly-NaN JavaScript numbers: NaN propagates. -/
def jadd (a b : Option α) : Option α :=
  match a, b with
  | some x, some y => some (x + y)
  | _, _ => none

/-- Model of `list.reduce((a, b) => a + b, 0)` on possibly-NaN numbers. -/
def jsum (l : List (Option α)) : Option α :=
  l.foldl jadd (some 0)

/-- Division of a possibly-NaN number by a list length (the call sites
divide by a length that is at least 1). -/
def jdivNat (a : Option α) (n : ℕ) : Option α :=
  match a with
  | some x => if n = 0 then none else some (x / (n : α))
  | none => none

/-- Comparison `a < t` where `a` may be NaN: every comparison with NaN is false. -/
def jlt (a : Option α) (t : α) : Bool :=
  match a with
  | some x => decide (x < t)
  | none => false

/-- Comparison `a > t` where `a` may be NaN: every comparison with NaN is false. -/
def jgt (a : Option α) (t : α) : Bool :=
  match a with
  | some x => decide (t < x)
  | none => false

/-- Model of `Math.round` on a possibly-NaN number; `Math.round(NaN)` is NaN.
`round` rounds half up, as `Math.round` does. -/
def jround [FloorRing α] (a : Option α) : Option ℤ :=
  a.map round

end JSNum

namespace KeypointSmoother

variable {α : Type} [LinearOrderedField α] [ToString α]

/-- Structure `KeypointHistory` of `smoothing.ts`. -/
structure KeypointHistory (α : Type) where
  keypoint : Keypoint α
  timestamp : ℤ
  stabilityCount : ℕ
deriving DecidableEq

/-- The `previousKeypoints` map, as an association list keyed by strings. -/
def HistMap (α : Type) : Type := List (String × KeypointHistory α)

instance : DecidableEq (HistMap α) := by
  unfold HistMap
  infer_instance

/-- Model of `Map.get`. -/
def mapGet (m : HistMap α) (k : String) : Option (KeypointHistory α) :=
  (List.find? (fun p => p.1 == k) m).map Prod.snd

/-- Model of `Map.set`: replace any existing binding of the key. -/
def mapSet (m : HistMap α) (k : String) (v : KeypointHistory α) : HistMap α :=
  (k, v) :: List.filter (fun p => !(p.1 == k)) m

/-- constant `MIN_CONFIDENCE = 0.25` of `smoothing.ts`. -/
def MIN_CONFIDENCE : α := 1 / 4

/-- constant `RENDER_CONFIDENCE = 0.35` of `smoothing.ts`. -/
def RENDER_CONFIDENCE : α := 7 / 20

/-- constant `STABILITY_THRESHOLD = 3` of `smoothing.ts`. -/
def STABILITY_THRESHOLD : ℕ := 3

/-- constant `MAX_POSITION_JUMP = 100` pixels of `smoothing.ts`. -/
def MAX_POSITION_JUMP : ℕ := 100

/-- Method `setAlpha`: clamp the smoothing factor into `[0.1, 1.0]`. -/
def setAlpha (a : α) : α := max (1 / 10) (min 1 a)

/-- The squared Euclidean distance between two keypoints. -/
def dist2 (a b : Keypoint α) : α := (a.x - b.x) ^ 2 + (a.y - b.y) ^ 2

/-- Method `isValidJump`, i.e. `Math.hypot(dx, dy) < MAX_POSITION_JUMP`.  Over exact
reals `√(dx² + dy²) < 100` holds iff `dx² + dy² < 100²` (see
`hypot_lt_iff_sq_lt_sq` below), which is how the test is phrased here so
that it is decidable over `ℚ`. -/
def isValidJump (current previous : Keypoint α) : Bool :=
  decide (dist2 current previous < ((MAX_POSITION_JUMP : ℕ) : α) ^ 2)

/-- The key under which a keypoint is tracked:
`kp.name || "x_y"` (JavaScript `||` treats the empty string as falsy). -/
def keyOf (kp : Keypoint α) : String :=
  match kp.name with
  | some n => if n = "" then toString kp.x ++ "_" ++ toString kp.y else n
  | none => toString kp.x ++ "_" ++ toString kp.y

/-- JavaScript truthiness test
`history.keypoint.score && history.keypoint.score >= RENDER_CONFIDENCE`. -/
def scoreTruthyGE (s : Option α) (t : α) : Bool :=
  match s with
  | some v => decide (v ≠ 0) && decide (t ≤ v)
  | none => false

/-- The `adaptiveAlpha` of `smooth`: the full alpha above the high-confidence cutoff
`0.7`, a reduced alpha (`alpha * 0.7`) otherwise. -/
def adaptiveAlphaOf (alpha : α) (kp : Keypoint α) : α :=
  if (7 : α) / 10 < kp.score.getD 0 then alpha else alpha * (7 / 10)

/-- The exponentially smoothed keypoint built in the accept branch of
`smooth`, with the confidence-adaptive alpha. -/
def blendKeypoint (alpha : α) (kp prev : Keypoint α) : Keypoint α :=
  let confidence := kp.score.getD 0
  let adaptiveAlpha := adaptiveAlphaOf alpha kp
  { x := adaptiveAlpha * kp.x + (1 - adaptiveAlpha) * prev.x
    y := adaptiveAlpha * kp.y + (1 - adaptiveAlpha) * prev.y
    score := some ((4 : α) / 5 * confidence + 1 / 5 * (prev.score.getD confidence))
    name := kp.name }

/-- Final gating of `smooth`: emit the smoothed keypoint only when it is
stable and confident enough, otherwise emit it with score forced to 0. -/
def emitGate (sm : Keypoint α) (stab : ℕ) : Keypoint α :=
  if STABILITY_THRESHOLD ≤ stab ∧ RENDER_CONFIDENCE (α := α) ≤ sm.score.getD 0 then sm
  else { sm with score := some 0 }

/-- The per-keypoint body of `KeypointSmoother.smooth`, returning the
emitted keypoint together with the updated history map. -/
def smoothKp (alpha : α) (m : HistMap α) (now : ℤ) (kp : Keypoint α) :
    Keypoint α × HistMap α :=
  let key := keyOf kp
  let history := mapGet m key
  let confidence := kp.score.getD 0
  if confidence < MIN_CONFIDENCE (α := α) then
    match history with
    | some h =>
      if scoreTruthyGE h.keypoint.score (RENDER_CONFIDENCE (α := α)) then
        ({ h.keypoint with score := some (max 0 (h.keypoint.score.getD 0 * (9 / 10))) }, m)
      else ({ kp with score := some 0 }, m)
    | none => ({ kp with score := some 0 }, m)
  else
    match history with
    | some h =>
      let prev := h.keypoint
      if ¬ isValidJump kp prev then
        ({ prev with score := some (max 0 (prev.score.getD 0 * (19 / 20))) }, m)
      else
        let smoothed := blendKeypoint alpha kp prev
        let stab := min (h.stabilityCount + 1) (STABILITY_THRESHOLD + 5)
        (emitGate smoothed stab,
         mapSet m key { keypoint := smoothed, timestamp := now, stabilityCount := stab })
    | none =>
      let smoothed := kp
      (emitGate smoothed 1,
       mapSet m key { keypoint := smoothed, timestamp := now, stabilityCount := 1 })

/-- The loop `pose.keypoints.map(kp => ...)` with the history map threaded through
in evaluation order. -/
def smoothKps (alpha : α) (m : HistMap α) (now : ℤ) :
    List (Keypoint α) → List (Keypoint α) × HistMap α
  | [] => ([], m)
  | kp :: rest =>
    let r1 := smoothKp alpha m now kp
    let r2 := smoothKps alpha r1.2 now rest
    (r1.1 :: r2.1, r2.2)

/-- The loop `poses.map(pose => ...)` with the history map threaded through. -/
def smoothPoses (alpha : α) (m : HistMap α) (now : ℤ) :
    List (Pose α) → List (Pose α) × HistMap α
  | [] => ([], m)
  | pose :: rest =>
    let r1 := smoothKps alpha m now pose.keypoints
    let r2 := smoothPoses alpha r1.2 now rest
    ({ pose with keypoints := r1.1 } :: r2.1, r2.2)

/-- Method `KeypointSmoother.smooth` (with the early return on an empty list). -/
def smooth (alpha : α) (m : HistMap α) (now : ℤ) (poses : List (Pose α)) :
    List (Pose α) × HistMap α :=
  if poses = [] then (poses, m) else smoothPoses alpha m now poses

/-- Test driver: feed the very same raw keypoint `n` frames in a row and
return the resulting history map. -/
def feedRepeated (alpha : α) (m : HistMap α) (now : ℤ) (kp : Keypoint α) :
    ℕ → HistMap α
  | 0 => m
  | n + 1 => (smoothKp alpha (feedRepeated alpha m now kp n) now kp).2

end KeypointSmoother

/-- Justification that `isValidJump` models `Math.hypot(dx,dy) < 100`
faithfully: over the reals, comparing the hypotenuse with the positive
bound is the same as comparing squared distance with the squared bound. -/
theorem hypot_lt_iff_sq_lt_sq (dx dy t : ℝ) (ht : 0 < t) :
    Real.sqrt (dx ^ 2 + dy ^ 2) < t ↔ dx ^ 2 + dy ^ 2 < t ^ 2 :=
  Real.sqrt_lt' ht

/-- Enumeration `ExerciseType` of `PoseBackend.ts`. -/
inductive ExerciseType where
  | squat
  | pushup
  | bicep_curl
deriving DecidableEq

/-- The `state` component of `RepState`: `'up' | 'down' | 'idle'`. -/
inductive MotionState where
  | up
  | down
  | idle
deriving DecidableEq

/-- Structure `RepState` of `PoseBackend.ts`.  `angle` holds the result of
`Math.round` on the smoothed angle and so can be NaN (`none`). -/
structure RepState where
  count : ℕ
  angle : Option ℤ
  state : MotionState
  lastRepTime : ℤ
deriving DecidableEq

/-- The full mutable state of a `RepCounter` instance. -/
structure RepCounter (α : Type) where
  exerciseType : ExerciseType
  state : RepState
  angleHistory : List (Option α)
deriving DecidableEq

/-- Function `angleBetween` of `PoseBackend.ts`: the angle at vertex `b`, in
degrees.  When either of the two vectors is zero the magnitude product is
zero and the JavaScript expression `dot / (magAB * magCB)` evaluates to
`0 / 0 = NaN`, which then propagates unchanged through the `min`/`max`
clamp and `Math.acos`; this NaN outcome is `none`. -/
noncomputable def angleBetween (a b c : Keypoint ℝ) : Option ℝ :=
  let abx := a.x - b.x
  let aby := a.y - b.y
  let cbx := c.x - b.x
  let cby := c.y - b.y
  let dot := abx * cbx + aby * cby
  let magAB := Real.sqrt (abx ^ 2 + aby ^ 2)
  let magCB := Real.sqrt (cbx ^ 2 + cby ^ 2)
  if magAB * magCB = 0 then none
  else some (Real.arccos (max (-1) (min 1 (dot / (magAB * magCB)))) * (180 / Real.pi))

namespace RepCounter

/-- constant `DEBOUNCE_MS = 300` of `PoseBackend.ts`. -/
def DEBOUNCE_MS : ℤ := 300

/-- constant `MIN_CONFIDENCE = 0.5` of `PoseBackend.ts`. -/
def MIN_CONFIDENCE {α : Type} [LinearOrderedField α] : α := 1 / 2

/-- constant `SMOOTHING_WINDOW = 3` of `PoseBackend.ts`. -/
def SMOOTHING_WINDOW : ℕ := 3

/-- The `RepCounter` constructor, with `Date.now()` passed explicitly. -/
def init {α : Type} (exerciseType : ExerciseType) (now : ℤ) : RepCounter α :=
  { exerciseType := exerciseType
    state := { count := 0, angle := some 0, state := .idle, lastRepTime := now }
    angleHistory := [] }

/-- Method `RepCounter.reset`. -/
def reset {α : Type} (c : RepCounter α) (now : ℤ) : RepCounter α :=
  { c with
    state := { count := 0, angle := some 0, state := .idle, lastRepTime := now }
    angleHistory := [] }

/-- Method `RepCounter.setExercise`: switch the exercise and reset. -/
def setExercise {α : Type} (c : RepCounter α) (t : ExerciseType) (now : ℤ) :
    RepCounter α :=
  reset { c with exerciseType := t } now

/-- Method `RepCounter.smoothAngle`: push the raw angle, drop the oldest value
once the window exceeds `SMOOTHING_WINDOW`, and return the updated window
together with the arithmetic mean. -/
def smoothAngle {α : Type} [LinearOrderedField α]
    (hist : List (Option α)) (angle : Option α) : List (Option α) × Option α :=
  let h1 := hist ++ [angle]
  let h2 := if SMOOTHING_WINDOW < h1.length then h1.tail else h1
  (h2, jdivNat (jsum h2) h2.length)

/-- The smoothed angle that a call to `update` would compute from the
current window and a new raw angle. -/
def smoothedOf {α : Type} [LinearOrderedField α]
    (c : RepCounter α) (angle : Option α) : Option α :=
  (smoothAngle c.angleHistory angle).2

/-- Method `RepCounter.getKeypoint`: look a joint up by name and reject it when
its confidence is below `MIN_CONFIDENCE`. -/
def getKeypoint {α : Type} [LinearOrderedField α]
    (pose : Pose α) (name : String) : Option (Keypoint α) :=
  match List.find? (fun k => k.name == some name) pose.keypoints with
  | none => none
  | some kp => if kp.score.getD 0 < MIN_CONFIDENCE (α := α) then none else some kp

/-- Method `RepCounter.computeSquatAngle`: `none` when a required joint is
missing or below confidence (the JavaScript `null`); `some a` is a
JavaScript number `a`, itself possibly NaN (`some none`). -/
noncomputable def computeSquatAngle (pose : Pose ℝ) : Option (Option ℝ) :=
  match getKeypoint pose "left_hip", getKeypoint pose "left_knee",
      getKeypoint pose "left_ankle", getKeypoint pose "right_hip",
      getKeypoint pose "right_knee", getKeypoint pose "right_ankle" with
  | some lh, some lk, some la, some rh, some rk, some ra =>
    some (jdivNat (jadd (angleBetween lh lk la) (angleBetween rh rk ra)) 2)
  | _, _, _, _, _, _ => none

/-- The part of `RepCounter.update` that runs once an angle has been
computed: smooth the angle, store the rounded value, and run the squat
threshold state machine. -/
def updateWithAngle {α : Type} [LinearOrderedField α] [FloorRing α]
    (c : RepCounter α) (angle : Option α) (now : ℤ) : RepCounter α :=
  let p := smoothAngle c.angleHistory angle
  let smoothed := p.2
  let rs0 : RepState := { c.state with angle := jround smoothed }
  let timeSinceLastRep := now - rs0.lastRepTime
  let rs1 : RepState :=
    if c.exerciseType = .squat then
      if jlt smoothed 90 = true ∧ rs0.state ≠ .down then
        { rs0 with state := .down }
      else if jgt smoothed 160 = true ∧ rs0.state = .down ∧
          DEBOUNCE_MS < timeSinceLastRep then
        { rs0 with count := rs0.count + 1, state := .up, lastRepTime := now }
      else rs0
    else rs0
  { c with state := rs1, angleHistory := p.1 }

/-- Method `RepCounter.update`: no-op on an empty pose list, otherwise compute
the exercise angle from the first pose and, if it is non-null, process
it. -/
noncomputable def update (c : RepCounter ℝ) (poses : List (Pose ℝ)) (now : ℤ) :
    RepCounter ℝ :=
  match poses with
  | [] => c
  | pose :: _ =>
    let angle := if c.exerciseType = .squat then computeSquatAngle pose else none
    match angle with
    | none => c
    | some a => updateWithAngle c a now

/-- Test driver: call `update` with an empty pose list `n` times. -/
noncomputable def updateEmptyIter (c : RepCounter ℝ) (now : ℤ) :
    ℕ → RepCounter ℝ
  | 0 => c
  | n + 1 => update (updateEmptyIter c now n) [] now

/-- Test driver: fold `update` over a list of frames. -/
noncomputable def updateMany (c : RepCounter ℝ)
    (frames : List (List (Pose ℝ) × ℤ)) : RepCounter ℝ :=
  frames.foldl (fun s fr => update s fr.1 fr.2) c

end RepCounter


section SmootherHelpers

/-- Looking up the key just stored by `mapSet` returns the new entry. -/
theorem mapGet_mapSet_self {α : Type} (m : KeypointSmoother.HistMap α) (k : String)
    (v : KeypointSmoother.KeypointHistory α) :
    KeypointSmoother.mapGet (KeypointSmoother.mapSet m k v) k = some v := by
  simp [KeypointSmoother.mapGet, KeypointSmoother.mapSet]

/-- Gating `emitGate` never changes the x coordinate. -/
theorem emitGate_x {α : Type} [LinearOrderedField α] (sm : Keypoint α) (stab : ℕ) :
    (KeypointSmoother.emitGate sm stab).x = sm.x := by
  unfold KeypointSmoother.emitGate
  split <;> rfl

/-- Gating `emitGate` never changes the y coordinate. -/
theorem emitGate_y {α : Type} [LinearOrderedField α] (sm : Keypoint α) (stab : ℕ) :
    (KeypointSmoother.emitGate sm stab).y = sm.y := by
  unfold KeypointSmoother.emitGate
  split <;> rfl

/-- Loop `smoothKps` emits exactly one keypoint per input keypoint. -/
theorem smoothKps_length {α : Type} [LinearOrderedField α] [ToString α]
    (alpha : α) (now : ℤ) :
    ∀ (kps : List (Keypoint α)) (m : KeypointSmoother.HistMap α),
      (KeypointSmoother.smoothKps alpha m now kps).1.length = kps.length
  | [], _ => rfl
  | _ :: rest, m => by
    simp [KeypointSmoother.smoothKps, smoothKps_length alpha now rest]

/-- First sighting of a key: the keypoint is emitted with its raw
coordinates and score forced to 0, and (when the confidence passes the
minimum threshold) the raw point is stored with stability count 1. -/
theorem smoothKp_first_sighting {α : Type} [LinearOrderedField α] [ToString α]
    (alpha : α) (m : KeypointSmoother.HistMap α)
    (now : ℤ) (kp : Keypoint α)
    (hnone : KeypointSmoother.mapGet m (KeypointSmoother.keyOf kp) = none) :
    (KeypointSmoother.smoothKp alpha m now kp).1 = { kp with score := some 0 } ∧
      (¬ kp.score.getD 0 < KeypointSmoother.MIN_CONFIDENCE (α := α) →
        KeypointSmoother.mapGet (KeypointSmoother.smoothKp alpha m now kp).2
            (KeypointSmoother.keyOf kp) =
          some { keypoint := kp, timestamp := now, stabilityCount := 1 }) := by
  unfold KeypointSmoother.smoothKp
  simp only [hnone]
  constructor
  · split
    · rfl
    · show (KeypointSmoother.emitGate kp 1) = _
      unfold KeypointSmoother.emitGate
      rw [if_neg]
      intro h
      exact absurd h.1 (by norm_num [KeypointSmoother.STABILITY_THRESHOLD])
  · intro hconf
    rw [if_neg hconf]
    exact mapGet_mapSet_self m _ _

/-- The stability count of an existing entry never decreases under one
`smooth` step on its keypoint, stays within the cap, and increments
(capped) exactly when the detection is accepted. -/
theorem smoothKp_stability {α : Type} [LinearOrderedField α] [ToString α]
    (alpha : α) (m : KeypointSmoother.HistMap α) (now : ℤ) (kp : Keypoint α)
    (h : KeypointSmoother.KeypointHistory α)
    (hm : KeypointSmoother.mapGet m (KeypointSmoother.keyOf kp) = some h)
    (hcap : h.stabilityCount ≤ KeypointSmoother.STABILITY_THRESHOLD + 5) :
    ∃ h2, KeypointSmoother.mapGet (KeypointSmoother.smoothKp alpha m now kp).2
        (KeypointSmoother.keyOf kp) = some h2
      ∧ h.stabilityCount ≤ h2.stabilityCount
      ∧ h2.stabilityCount ≤ KeypointSmoother.STABILITY_THRESHOLD + 5
      ∧ (¬ kp.score.getD 0 < KeypointSmoother.MIN_CONFIDENCE (α := α) →
          KeypointSmoother.isValidJump kp h.keypoint = true →
          h2.stabilityCount = min (h.stabilityCount + 1) (KeypointSmoother.STABILITY_THRESHOLD + 5)) := by
  unfold KeypointSmoother.smoothKp
  simp only [hm]
  split_ifs with hconf htruthy hjump
  · exact ⟨h, hm, le_refl _, hcap, fun hc _ => absurd hconf hc⟩
  · exact ⟨h, hm, le_refl _, hcap, fun hc _ => absurd hconf hc⟩
  · refine ⟨_, mapGet_mapSet_self m _ _, ?_, ?_, fun _ _ => rfl⟩
    · exact le_min (Nat.le_succ _) hcap
    · exact min_le_right _ _
  · exact ⟨h, hm, le_refl _, hcap, fun _ hj => absurd hj hjump⟩

/-- Branch behaviour of `smooth` on a tracked keypoint with acceptable
confidence: distance at or above the displacement threshold means the
prior point is replayed with decayed confidence and history untouched;
distance strictly below it means the blend is stored and emitted through
the gate. -/
theorem smoothKp_jump_cases {α : Type} [LinearOrderedField α] [ToString α]
    (alpha : α) (m : KeypointSmoother.HistMap α) (now : ℤ) (kp : Keypoint α)
    (h : KeypointSmoother.KeypointHistory α)
    (hm : KeypointSmoother.mapGet m (KeypointSmoother.keyOf kp) = some h)
    (hconf : ¬ kp.score.getD 0 < KeypointSmoother.MIN_CONFIDENCE (α := α)) :
    (¬ KeypointSmoother.dist2 kp h.keypoint <
        ((KeypointSmoother.MAX_POSITION_JUMP : ℕ) : α) ^ 2 →
      (KeypointSmoother.smoothKp alpha m now kp).1 =
        { h.keypoint with score := some (max 0 (h.keypoint.score.getD 0 * (19 / 20))) }
      ∧ (KeypointSmoother.smoothKp alpha m now kp).2 = m)
    ∧ (KeypointSmoother.dist2 kp h.keypoint <
        ((KeypointSmoother.MAX_POSITION_JUMP : ℕ) : α) ^ 2 →
      (KeypointSmoother.smoothKp alpha m now kp).1 =
        KeypointSmoother.emitGate (KeypointSmoother.blendKeypoint alpha kp h.keypoint)
          (min (h.stabilityCount + 1) (KeypointSmoother.STABILITY_THRESHOLD + 5))
      ∧ (KeypointSmoother.smoothKp alpha m now kp).2 =
        KeypointSmoother.mapSet m (KeypointSmoother.keyOf kp)
          { keypoint := KeypointSmoother.blendKeypoint alpha kp h.keypoint,
            timestamp := now,
            stabilityCount := min (h.stabilityCount + 1) (KeypointSmoother.STABILITY_THRESHOLD + 5) }) := by
  unfold KeypointSmoother.smoothKp
  simp only [hm, KeypointSmoother.isValidJump, decide_eq_true_eq]
  rw [if_neg hconf]
  constructor
  · intro hfar
    rw [if_pos hfar]
    exact ⟨rfl, rfl⟩
  · intro hnear
    rw [if_neg (by simpa using hnear)]
    exact ⟨rfl, rfl⟩

/-- The adaptive alpha stays in `[0, 1]` when alpha does. -/
theorem adaptiveAlpha_bounds {α : Type} [LinearOrderedField α]
    (alpha : α) (kp : Keypoint α) (h0 : 0 ≤ alpha) (h1 : alpha ≤ 1) :
    0 ≤ KeypointSmoother.adaptiveAlphaOf alpha kp ∧
      KeypointSmoother.adaptiveAlphaOf alpha kp ≤ 1 := by
  unfold KeypointSmoother.adaptiveAlphaOf
  split_ifs
  · exact ⟨h0, h1⟩
  · constructor
    · positivity
    · nlinarith

/-- The blended position is a convex combination: it lies between the
previous smoothed position and the raw input on each axis, and its error
against the input contracts by the factor `1 - adaptiveAlpha`. -/
theorem blend_between {α : Type} [LinearOrderedField α]
    (alpha : α) (kp prev : Keypoint α) (h0 : 0 ≤ alpha) (h1 : alpha ≤ 1) :
    (min prev.x kp.x ≤ (KeypointSmoother.blendKeypoint alpha kp prev).x
      ∧ (KeypointSmoother.blendKeypoint alpha kp prev).x ≤ max prev.x kp.x)
    ∧ (min prev.y kp.y ≤ (KeypointSmoother.blendKeypoint alpha kp prev).y
      ∧ (KeypointSmoother.blendKeypoint alpha kp prev).y ≤ max prev.y kp.y)
    ∧ (KeypointSmoother.blendKeypoint alpha kp prev).x - kp.x =
        (1 - KeypointSmoother.adaptiveAlphaOf alpha kp) * (prev.x - kp.x)
    ∧ (KeypointSmoother.blendKeypoint alpha kp prev).y - kp.y =
        (1 - KeypointSmoother.adaptiveAlphaOf alpha kp) * (prev.y - kp.y) := by
  obtain ⟨ha0, ha1⟩ := adaptiveAlpha_bounds alpha kp h0 h1
  set a := KeypointSmoother.adaptiveAlphaOf alpha kp with hadef
  unfold KeypointSmoother.blendKeypoint
  rw [← hadef]
  refine ⟨⟨?_, ?_⟩, ⟨?_, ?_⟩, by ring, by ring⟩
  · rcases le_total prev.x kp.x with h | h
    · rw [min_eq_left h]; nlinarith
    · rw [min_eq_right h]; nlinarith
  · rcases le_total prev.x kp.x with h | h
    · rw [max_eq_right h]; nlinarith
    · rw [max_eq_left h]; nlinarith
  · rcases le_total prev.y kp.y with h | h
    · rw [min_eq_left h]; nlinarith
    · rw [min_eq_right h]; nlinarith
  · rcases le_total prev.y kp.y with h | h
    · rw [max_eq_right h]; nlinarith
    · rw [max_eq_left h]; nlinarith

/-- Blending an input with a previous point at the same position leaves
the position unchanged. -/
theorem blend_fixed_point {α : Type} [LinearOrderedField α]
    (alpha : α) (kp prev : Keypoint α)
    (hx : prev.x = kp.x) (hy : prev.y = kp.y) :
    (KeypointSmoother.blendKeypoint alpha kp prev).x = kp.x ∧
      (KeypointSmoother.blendKeypoint alpha kp prev).y = kp.y := by
  unfold KeypointSmoother.blendKeypoint
  constructor
  · show KeypointSmoother.adaptiveAlphaOf alpha kp * kp.x +
      (1 - KeypointSmoother.adaptiveAlphaOf alpha kp) * prev.x = kp.x
    rw [hx]; ring
  · show KeypointSmoother.adaptiveAlphaOf alpha kp * kp.y +
      (1 - KeypointSmoother.adaptiveAlphaOf alpha kp) * prev.y = kp.y
    rw [hy]; ring

/-- Feeding one identical keypoint repeatedly: from the very first frame
on, the stored position equals the input position exactly. -/
theorem feedRepeated_position {α : Type} [LinearOrderedField α] [ToString α]
    (alpha : α) (m : KeypointSmoother.HistMap α) (now : ℤ) (kp : Keypoint α)
    (hnone : KeypointSmoother.mapGet m (KeypointSmoother.keyOf kp) = none)
    (hconf : ¬ kp.score.getD 0 < KeypointSmoother.MIN_CONFIDENCE (α := α)) :
    ∀ n, 1 ≤ n →
      ∃ h2, KeypointSmoother.mapGet (KeypointSmoother.feedRepeated alpha m now kp n)
          (KeypointSmoother.keyOf kp) = some h2
        ∧ h2.keypoint.x = kp.x ∧ h2.keypoint.y = kp.y := by
  intro n hn
  induction n with
  | zero => omega
  | succ k ih =>
    rcases Nat.eq_zero_or_pos k with hk | hk
    · subst hk
      refine ⟨{ keypoint := kp, timestamp := now, stabilityCount := 1 }, ?_, rfl, rfl⟩
      show KeypointSmoother.mapGet (KeypointSmoother.smoothKp alpha
        (KeypointSmoother.feedRepeated alpha m now kp 0) now kp).2 _ = _
      exact (smoothKp_first_sighting alpha m now kp hnone).2 hconf
    · obtain ⟨h2, hget, hx, hy⟩ := ih hk
      have hnear : KeypointSmoother.dist2 kp h2.keypoint <
          ((KeypointSmoother.MAX_POSITION_JUMP : ℕ) : α) ^ 2 := by
        unfold KeypointSmoother.dist2
        rw [hx, hy]
        norm_num [KeypointSmoother.MAX_POSITION_JUMP]
      obtain ⟨bx, by'⟩ := blend_fixed_point alpha kp h2.keypoint hx hy
      refine ⟨_, ((smoothKp_jump_cases alpha _ now kp h2 hget hconf).2 hnear).2 ▸
        mapGet_mapSet_self _ _ _, bx, by'⟩

end SmootherHelpers

section CounterHelpers

/-- A smoothed value below the deep threshold cannot also be above the
shallow threshold. -/
theorem jlt90_not_jgt160 {α : Type} [LinearOrderedField α]
    (x : Option α) (h : jlt x (90 : α) = true) : jgt x (160 : α) = false := by
  cases x with
  | none => rfl
  | some v =>
    simp only [jlt, decide_eq_true_eq] at h
    simp only [jgt, decide_eq_false_iff_not, not_lt]
    linarith

/-- Lemma: `updateWithAngle` never changes the exercise type. -/
theorem updateWithAngle_exercise {α : Type} [LinearOrderedField α] [FloorRing α]
    (c : RepCounter α) (a : Option α) (t : ℤ) :
    (RepCounter.updateWithAngle c a t).exerciseType = c.exerciseType := rfl

/-- Lemma: `updateWithAngle` always stores the new smoothing window. -/
theorem updateWithAngle_history {α : Type} [LinearOrderedField α] [FloorRing α]
    (c : RepCounter α) (a : Option α) (t : ℤ) :
    (RepCounter.updateWithAngle c a t).angleHistory =
      (RepCounter.smoothAngle c.angleHistory a).1 := rfl

/-- A frame whose smoothed angle is below the deep threshold leaves the
counter in (or moves it to) the `down` state without counting. -/
theorem updateWithAngle_down {α : Type} [LinearOrderedField α] [FloorRing α]
    (c : RepCounter α) (a : Option α) (t : ℤ)
    (hex : c.exerciseType = .squat)
    (hlt : jlt (RepCounter.smoothedOf c a) (90 : α) = true) :
    (RepCounter.updateWithAngle c a t).state.state = .down
    ∧ (RepCounter.updateWithAngle c a t).state.count = c.state.count
    ∧ (RepCounter.updateWithAngle c a t).state.lastRepTime = c.state.lastRepTime := by
  have hgt := jlt90_not_jgt160 _ hlt
  simp only [RepCounter.smoothedOf] at hlt hgt
  simp only [RepCounter.updateWithAngle, hex, if_true]
  by_cases hdown : c.state.state = MotionState.down
  · rw [if_neg (fun hc => hc.2 hdown),
      if_neg (fun hc => by rw [hgt] at hc; exact Bool.false_ne_true hc.1)]
    exact ⟨hdown, rfl, rfl⟩
  · rw [if_pos ⟨hlt, hdown⟩]
    exact ⟨rfl, rfl, rfl⟩

/-- A frame whose smoothed angle is above the shallow threshold, arriving
in the `down` state after the debounce window, counts one repetition. -/
theorem updateWithAngle_rep {α : Type} [LinearOrderedField α] [FloorRing α]
    (c : RepCounter α) (a : Option α) (t : ℤ)
    (hex : c.exerciseType = .squat)
    (hdown : c.state.state = .down)
    (hgt : jgt (RepCounter.smoothedOf c a) (160 : α) = true)
    (hdeb : RepCounter.DEBOUNCE_MS < t - c.state.lastRepTime) :
    (RepCounter.updateWithAngle c a t).state.count = c.state.count + 1
    ∧ (RepCounter.updateWithAngle c a t).state.state = .up
    ∧ (RepCounter.updateWithAngle c a t).state.lastRepTime = t := by
  simp only [RepCounter.smoothedOf] at hgt
  simp only [RepCounter.updateWithAngle, hex, if_true]
  rw [if_neg (fun hc => hc.2 hdown), if_pos ⟨hgt, hdown, hdeb⟩]
  exact ⟨rfl, rfl, rfl⟩

/-- Either a frame leaves the count and the last-rep time untouched, or
it increments the count by exactly one, which requires the `down` state,
a smoothed angle above the shallow threshold, and the debounce window. -/
theorem updateWithAngle_count_cases {α : Type} [LinearOrderedField α] [FloorRing α]
    (c : RepCounter α) (a : Option α) (t : ℤ) :
    ((RepCounter.updateWithAngle c a t).state.count = c.state.count
      ∧ (RepCounter.updateWithAngle c a t).state.lastRepTime = c.state.lastRepTime)
    ∨ ((RepCounter.updateWithAngle c a t).state.count = c.state.count + 1
      ∧ c.exerciseType = .squat
      ∧ c.state.state = .down
      ∧ jgt (RepCounter.smoothedOf c a) (160 : α) = true
      ∧ RepCounter.DEBOUNCE_MS < t - c.state.lastRepTime
      ∧ (RepCounter.updateWithAngle c a t).state.lastRepTime = t
      ∧ (RepCounter.updateWithAngle c a t).state.state = .up) := by
  simp only [RepCounter.updateWithAngle, RepCounter.smoothedOf]
  split_ifs with hex h1 h2
  · exact Or.inl ⟨rfl, rfl⟩
  · exact Or.inr ⟨rfl, hex, h2.2.1, h2.1, h2.2.2, rfl, rfl⟩
  · exact Or.inl ⟨rfl, rfl⟩
  · exact Or.inl ⟨rfl, rfl⟩

/-- Calling `update` on an empty pose list is the identity. -/
theorem update_nil (c : RepCounter ℝ) (now : ℤ) : RepCounter.update c [] now = c := rfl

/-- Method `update` reads only the head of the pose list. -/
theorem update_cons_eq_single (c : RepCounter ℝ) (p : Pose ℝ) (rest : List (Pose ℝ))
    (now : ℤ) :
    RepCounter.update c (p :: rest) now = RepCounter.update c [p] now := rfl

/-- When the computed exercise angle is non-null, `update` reduces to the
angle-processing step. -/
theorem update_cons_of_angle (c : RepCounter ℝ) (p : Pose ℝ) (rest : List (Pose ℝ))
    (now : ℤ) (a : Option ℝ)
    (h : (if c.exerciseType = ExerciseType.squat then RepCounter.computeSquatAngle p
      else none) = some a) :
    RepCounter.update c (p :: rest) now = RepCounter.updateWithAngle c a now := by
  unfold RepCounter.update
  simp only [h]

/-- The rep count never decreases across one `update` call. -/
theorem update_count_mono (c : RepCounter ℝ) (poses : List (Pose ℝ)) (now : ℤ) :
    c.state.count ≤ (RepCounter.update c poses now).state.count := by
  cases poses with
  | nil => exact le_refl _
  | cons p rest =>
    unfold RepCounter.update
    cases hangle : (if c.exerciseType = ExerciseType.squat then
        RepCounter.computeSquatAngle p else none) with
    | none => simp only [hangle]; exact le_refl _
    | some a =>
      simp only [hangle]
      rcases updateWithAngle_count_cases c a now with ⟨h, _⟩ | ⟨h, _⟩ <;> omega

/-- Method `update` is the identity when the squat angle cannot be computed. -/
theorem update_angle_none (c : RepCounter ℝ) (p : Pose ℝ) (rest : List (Pose ℝ)) (now : ℤ)
    (hex : c.exerciseType = .squat) (hnone : RepCounter.computeSquatAngle p = none) :
    RepCounter.update c (p :: rest) now = c := by
  unfold RepCounter.update
  simp only [hex, if_true, hnone]

/-- Method `update` is the identity for the exercises with no angle rule. -/
theorem update_nonsquat (c : RepCounter ℝ) (poses : List (Pose ℝ)) (now : ℤ)
    (hex : c.exerciseType ≠ .squat) :
    RepCounter.update c poses now = c := by
  cases poses with
  | nil => rfl
  | cons p rest =>
    unfold RepCounter.update
    simp only [if_neg hex]

/-- Iterating `update` on empty frames is the identity. -/
theorem updateEmptyIter_fixed (c : RepCounter ℝ) (now : ℤ) :
    ∀ n, RepCounter.updateEmptyIter c now n = c
  | 0 => rfl
  | n + 1 => by
    show RepCounter.update (RepCounter.updateEmptyIter c now n) [] now = c
    rw [updateEmptyIter_fixed c now n]
    exact update_nil c now

/-- Folding `update` over any frame sequence is the identity for the
exercises with no angle rule. -/
theorem updateMany_nonsquat (frames : List (List (Pose ℝ) × ℤ)) :
    ∀ (c : RepCounter ℝ), c.exerciseType ≠ .squat → RepCounter.updateMany c frames = c := by
  induction frames with
  | nil => intro c _; rfl
  | cons f rest ih =>
    intro c hex
    show RepCounter.updateMany (RepCounter.update c f.1 f.2) rest = c
    rw [update_nonsquat c f.1 f.2 hex]
    exact ih c hex

/-- The rep count never decreases across any sequence of `update` calls. -/
theorem updateMany_count_mono (frames : List (List (Pose ℝ) × ℤ)) :
    ∀ (c : RepCounter ℝ), c.state.count ≤ (RepCounter.updateMany c frames).state.count := by
  induction frames with
  | nil => intro c; exact le_refl _
  | cons f rest ih =>
    intro c
    calc c.state.count ≤ (RepCounter.update c f.1 f.2).state.count :=
          update_count_mono c f.1 f.2
      _ ≤ (RepCounter.updateMany (RepCounter.update c f.1 f.2) rest).state.count :=
          ih _

/-- Coincident vertex and neighbour: the magnitude product is zero, the
JavaScript quotient is `0 / 0 = NaN`, and `angleBetween` returns NaN. -/
theorem angleBetween_coincident (a b c : Keypoint ℝ) (hx : a.x = b.x) (hy : a.y = b.y) :
    angleBetween a b c = none := by
  unfold angleBetween
  rw [hx, hy]
  norm_num [Real.sqrt_zero]

/-- NaN propagates through the left argument of an addition. -/
theorem jadd_none_left (b : Option ℝ) : jadd none b = none := by cases b <;> rfl

end CounterHelpers

/-- A squat pose whose left hip coincides with the left knee: a degenerate
triplet for the left-knee angle. -/
def degeneratePose : Pose ℝ :=
  ⟨[⟨0, 0, some 1, some "left_hip"⟩,
    ⟨0, 0, some 1, some "left_knee"⟩,
    ⟨1, 0, some 1, some "left_ankle"⟩,
    ⟨0, 10, some 1, some "right_hip"⟩,
    ⟨2, 5, some 1, some "right_knee"⟩,
    ⟨0, 0, some 1, some "right_ankle"⟩], none⟩

/-- C1: the claim says a degenerate triplet (vertex coincident with a
neighbour) yields a defined safe default angle and that no NaN ever
reaches the smoothing window.  The code has no such guard: `angleBetween`
divides by the zero magnitude product, returns NaN (`none`), the NaN is a
number rather than `null`, and one `update` call on such a pose pushes
NaN into the angle-history window. -/
theorem claim_C1_degenerate_angle_nan :
    angleBetween ⟨0, 0, some 1, some "left_hip"⟩ ⟨0, 0, some 1, some "left_knee"⟩
        ⟨1, 0, some 1, some "left_ankle"⟩ = none
    ∧ RepCounter.computeSquatAngle degeneratePose = some none
    ∧ (RepCounter.update (RepCounter.init .squat 0) [degeneratePose] 1000).angleHistory =
        [none] := by
  have hdeg : angleBetween ⟨0, 0, some 1, some "left_hip"⟩ ⟨0, 0, some 1, some "left_knee"⟩
      ⟨1, 0, some 1, some "left_ankle"⟩ = none :=
    angleBetween_coincident _ _ _ rfl rfl
  have h1 : RepCounter.getKeypoint degeneratePose "left_hip" =
      some ⟨0, 0, some 1, some "left_hip"⟩ := by
    simp [RepCounter.getKeypoint, degeneratePose, List.find?, RepCounter.MIN_CONFIDENCE]
    norm_num
  have h2 : RepCounter.getKeypoint degeneratePose "left_knee" =
      some ⟨0, 0, some 1, some "left_knee"⟩ := by
    simp [RepCounter.getKeypoint, degeneratePose, List.find?, RepCounter.MIN_CONFIDENCE]
    norm_num
  have h3 : RepCounter.getKeypoint degeneratePose "left_ankle" =
      some ⟨1, 0, some 1, some "left_ankle"⟩ := by
    simp [RepCounter.getKeypoint, degeneratePose, List.find?, RepCounter.MIN_CONFIDENCE]
    norm_num
  have h4 : RepCounter.getKeypoint degeneratePose "right_hip" =
      some ⟨0, 10, some 1, some "right_hip"⟩ := by
    simp [RepCounter.getKeypoint, degeneratePose, List.find?, RepCounter.MIN_CONFIDENCE]
    norm_num
  have h5 : RepCounter.getKeypoint degeneratePose "right_knee" =
      some ⟨2, 5, some 1, some "right_knee"⟩ := by
    simp [RepCounter.getKeypoint, degeneratePose, List.find?, RepCounter.MIN_CONFIDENCE]
    norm_num
  have h6 : RepCounter.getKeypoint degeneratePose "right_ankle" =
      some ⟨0, 0, some 1, some "right_ankle"⟩ := by
    simp [RepCounter.getKeypoint, degeneratePose, List.find?, RepCounter.MIN_CONFIDENCE]
    norm_num
  have hcsa : RepCounter.computeSquatAngle degeneratePose = some none := by
    unfold RepCounter.computeSquatAngle
    rw [h1, h2, h3, h4, h5, h6]
    show some (jdivNat (jadd (angleBetween _ _ _) (angleBetween _ _ _)) 2) = some none
    rw [hdeg, jadd_none_left]
    rfl
  refine ⟨hdeg, hcsa, ?_⟩
  rw [update_cons_of_angle _ _ _ _ none (by
    rw [if_pos (show (RepCounter.init (α := ℝ) ExerciseType.squat 0).exerciseType =
      ExerciseType.squat from rfl)]
    exact hcsa)]
  rfl

/-- C3: the rep count is monotonically non-decreasing under every
angle-processing step and every `update` call on arbitrary pose input,
and only `reset` (hence also `setExercise`) returns it to zero. -/
theorem claim_C3_count_monotone :
    (∀ {α : Type} [LinearOrderedField α] [FloorRing α]
        (c : RepCounter α) (a : Option α) (t : ℤ),
      c.state.count ≤ (RepCounter.updateWithAngle c a t).state.count)
    ∧ (∀ (c : RepCounter ℝ) (poses : List (Pose ℝ)) (now : ℤ),
      c.state.count ≤ (RepCounter.update c poses now).state.count)
    ∧ (∀ (c : RepCounter ℝ) (frames : List (List (Pose ℝ) × ℤ)),
      c.state.count ≤ (RepCounter.updateMany c frames).state.count)
    ∧ (∀ {α : Type} (c : RepCounter α) (now : ℤ),
      (RepCounter.reset c now).state.count = 0
      ∧ (RepCounter.setExercise c .pushup now).state.count = 0) := by
  refine ⟨?_, update_count_mono, fun c frames => updateMany_count_mono frames c,
    fun c now => ⟨rfl, rfl⟩⟩
  intro α instF instR c a t
  rcases updateWithAngle_count_cases c a t with ⟨h, _⟩ | ⟨h, _⟩ <;> omega

/-- C5: a keypoint whose identity key has no history entry is emitted
with confidence forced to 0 (whatever its raw confidence was) but with
its raw coordinates, and the smoother never drops a keypoint from the
emitted pose. -/
theorem claim_C5_first_sighting_zero_confidence {α : Type} [LinearOrderedField α]
    [ToString α] (alpha : α) (m : KeypointSmoother.HistMap α) (now : ℤ) (kp : Keypoint α)
    (hnone : KeypointSmoother.mapGet m (KeypointSmoother.keyOf kp) = none) :
    (KeypointSmoother.smoothKp alpha m now kp).1 = { kp with score := some 0 }
    ∧ ∀ (kps : List (Keypoint α)) (m2 : KeypointSmoother.HistMap α),
        (KeypointSmoother.smoothKps alpha m2 now kps).1.length = kps.length :=
  ⟨(smoothKp_first_sighting alpha m now kp hnone).1,
   fun kps m2 => smoothKps_length alpha now kps m2⟩

/-- Witness for C5 at a concrete first sighting. -/
theorem claim_C5_witness :
    KeypointSmoother.mapGet ([] : KeypointSmoother.HistMap ℚ)
        (KeypointSmoother.keyOf ⟨1, 2, some (1 / 2), some "k"⟩) = none
    ∧ (KeypointSmoother.smoothKp (3 / 10 : ℚ) [] 0 ⟨1, 2, some (1 / 2), some "k"⟩).1 =
        ⟨1, 2, some 0, some "k"⟩ :=
  ⟨by decide,
   (claim_C5_first_sighting_zero_confidence (3 / 10 : ℚ) [] 0
     ⟨1, 2, some (1 / 2), some "k"⟩ (by decide)).1⟩

/-- C6: an existing history entry's stability count never decreases under
a `smooth` step on its joint, stays capped at `STABILITY_THRESHOLD + 5`,
and increments (capped) whenever the frame's confidence is at or above
the minimum threshold and the jump is plausible — in particular it is not
reset when the confidence is merely below the render threshold. -/
theorem claim_C6_stability_monotone {α : Type} [LinearOrderedField α] [ToString α]
    (alpha : α) (m : KeypointSmoother.HistMap α) (now : ℤ) (kp : Keypoint α)
    (h : KeypointSmoother.KeypointHistory α)
    (hm : KeypointSmoother.mapGet m (KeypointSmoother.keyOf kp) = some h)
    (hcap : h.stabilityCount ≤ KeypointSmoother.STABILITY_THRESHOLD + 5) :
    ∃ h2, KeypointSmoother.mapGet (KeypointSmoother.smoothKp alpha m now kp).2
        (KeypointSmoother.keyOf kp) = some h2
      ∧ h.stabilityCount ≤ h2.stabilityCount
      ∧ h2.stabilityCount ≤ KeypointSmoother.STABILITY_THRESHOLD + 5
      ∧ (¬ kp.score.getD 0 < KeypointSmoother.MIN_CONFIDENCE (α := α) →
          KeypointSmoother.isValidJump kp h.keypoint = true →
          h2.stabilityCount = min (h.stabilityCount + 1)
            (KeypointSmoother.STABILITY_THRESHOLD + 5)) :=
  smoothKp_stability alpha m now kp h hm hcap

/-- Witness for C6: confidence 0.3 sits between the minimum threshold and
the render threshold, and the stability count still advances from 2 to 3. -/
theorem claim_C6_witness :
    KeypointSmoother.mapGet
        [("k", ⟨⟨0, 0, some (9 / 10), some "k"⟩, 0, 2⟩)]
        (KeypointSmoother.keyOf (⟨3, 4, some (3 / 10), some "k"⟩ : Keypoint ℚ)) =
      some ⟨⟨0, 0, some (9 / 10), some "k"⟩, 0, 2⟩
    ∧ (2 : ℕ) ≤ KeypointSmoother.STABILITY_THRESHOLD + 5
    ∧ (∃ h2, KeypointSmoother.mapGet
          (KeypointSmoother.smoothKp (3 / 10 : ℚ)
            [("k", ⟨⟨0, 0, some (9 / 10), some "k"⟩, 0, 2⟩)] 7
            ⟨3, 4, some (3 / 10), some "k"⟩).2
          (KeypointSmoother.keyOf (⟨3, 4, some (3 / 10), some "k"⟩ : Keypoint ℚ)) = some h2
        ∧ (2 : ℕ) ≤ h2.stabilityCount
        ∧ h2.stabilityCount ≤ KeypointSmoother.STABILITY_THRESHOLD + 5
        ∧ (¬ (⟨3, 4, some (3 / 10), some "k"⟩ : Keypoint ℚ).score.getD 0 <
              KeypointSmoother.MIN_CONFIDENCE (α := ℚ) →
            KeypointSmoother.isValidJump (⟨3, 4, some (3 / 10), some "k"⟩ : Keypoint ℚ)
              (⟨0, 0, some (9 / 10), some "k"⟩ : Keypoint ℚ) = true →
            h2.stabilityCount = min (2 + 1) (KeypointSmoother.STABILITY_THRESHOLD + 5))) :=
  ⟨rfl, by decide,
   claim_C6_stability_monotone (3 / 10 : ℚ)
     [("k", ⟨⟨0, 0, some (9 / 10), some "k"⟩, 0, 2⟩)] 7
     ⟨3, 4, some (3 / 10), some "k"⟩ ⟨⟨0, 0, some (9 / 10), some "k"⟩, 0, 2⟩
     rfl (by decide)⟩

/-- C7: `update` is a no-op on an empty pose list and whenever the
required squat angle cannot be computed, and iterating `update([])` any
number of times leaves the whole counter state unchanged. -/
theorem claim_C7_update_noop :
    (∀ (c : RepCounter ℝ) (now : ℤ), RepCounter.update c [] now = c)
    ∧ (∀ (c : RepCounter ℝ) (p : Pose ℝ) (rest : List (Pose ℝ)) (now : ℤ),
        c.exerciseType = .squat → RepCounter.computeSquatAngle p = none →
        RepCounter.update c (p :: rest) now = c)
    ∧ (∀ (c : RepCounter ℝ) (now : ℤ) (n : ℕ), RepCounter.updateEmptyIter c now n = c) :=
  ⟨update_nil, update_angle_none, updateEmptyIter_fixed⟩

/-- Witness for C7 at a pose with no keypoints (all joints missing). -/
theorem claim_C7_witness :
    (RepCounter.init (α := ℝ) .squat 0).exerciseType = .squat
    ∧ RepCounter.computeSquatAngle ⟨[], none⟩ = none
    ∧ RepCounter.update (RepCounter.init .squat 0) [⟨[], none⟩] 99 =
        RepCounter.init .squat 0 :=
  ⟨rfl, rfl, claim_C7_update_noop.2.1 (RepCounter.init .squat 0) ⟨[], none⟩ [] 99 rfl rfl⟩

/-- C8 (amended): the repetition counter indeed depends only on the first
pose of the list; the smoother, by contrast, processes every pose (see
the counterexample). -/
theorem claim_C8_counter_first_pose_only (c : RepCounter ℝ) (p : Pose ℝ)
    (rest : List (Pose ℝ)) (now : ℤ) :
    RepCounter.update c (p :: rest) now = RepCounter.update c [p] now := rfl

/-- Counterexample for C8 as stated: the smoother's history after a
two-pose frame differs from its history after the same frame truncated to
its first pose, so the smoother's output and history do not depend only
on the first pose. -/
theorem claim_C8_smoother_counterexample :
    (KeypointSmoother.smooth (3 / 10 : ℚ) [] 0
        [⟨[], none⟩, ⟨[⟨1, 1, some 1, some "bk"⟩], none⟩]).2 ≠
      (KeypointSmoother.smooth (3 / 10 : ℚ) [] 0 [⟨[], none⟩]).2 := by
  intro heq
  have hstep : (KeypointSmoother.smooth (3 / 10 : ℚ) [] 0
      [⟨[], none⟩, ⟨[⟨1, 1, some 1, some "bk"⟩], none⟩]).2 =
      (KeypointSmoother.smoothKp (3 / 10 : ℚ) [] 0 ⟨1, 1, some 1, some "bk"⟩).2 := rfl
  have h1 := (smoothKp_first_sighting (3 / 10 : ℚ) [] 0 ⟨1, 1, some 1, some "bk"⟩ rfl).2
    (by norm_num [KeypointSmoother.MIN_CONFIDENCE])
  rw [← hstep, heq] at h1
  exact Option.noConfusion h1

/-- C10: for exercise types other than squat no angle is ever computed,
so `update` never modifies the counter state, over any frame sequence;
a freshly constructed counter stays at count 0, angle 0, state idle. -/
theorem claim_C10_nonsquat_noop :
    (∀ (c : RepCounter ℝ) (poses : List (Pose ℝ)) (now : ℤ),
      c.exerciseType ≠ .squat → RepCounter.update c poses now = c)
    ∧ (∀ (c : RepCounter ℝ) (frames : List (List (Pose ℝ) × ℤ)),
      c.exerciseType ≠ .squat → RepCounter.updateMany c frames = c)
    ∧ (∀ (t : ExerciseType) (now : ℤ),
      (RepCounter.init (α := ℝ) t now).state =
        { count := 0, angle := some 0, state := .idle, lastRepTime := now }) :=
  ⟨update_nonsquat, fun c frames h => updateMany_nonsquat frames c h, fun _ _ => rfl⟩

/-- Witness for C10 on a pushup counter fed a non-empty pose. -/
theorem claim_C10_witness :
    (RepCounter.init (α := ℝ) .pushup 0).exerciseType ≠ .squat
    ∧ RepCounter.update (RepCounter.init .pushup 0)
        [⟨[⟨1, 2, some 1, some "left_knee"⟩], none⟩] 50 = RepCounter.init .pushup 0 :=
  ⟨by decide,
   claim_C10_nonsquat_noop.1 (RepCounter.init .pushup 0)
     [⟨[⟨1, 2, some 1, some "left_knee"⟩], none⟩] 50 (by decide)⟩

/-- C4 (amended): with prior history and confidence at or above the
minimum threshold, the detection is treated as an implausible jump
exactly when the squared Euclidean distance to the prior accepted point
is at least (not strictly exceeds) the squared maximum displacement: then
the prior point is emitted with confidence decayed by 0.95 and history is
untouched; below the threshold the detection is accepted and blended. -/
theorem claim_C4_jump_rejection {α : Type} [LinearOrderedField α] [ToString α]
    (alpha : α) (m : KeypointSmoother.HistMap α) (now : ℤ) (kp : Keypoint α)
    (h : KeypointSmoother.KeypointHistory α)
    (hm : KeypointSmoother.mapGet m (KeypointSmoother.keyOf kp) = some h)
    (hconf : KeypointSmoother.MIN_CONFIDENCE (α := α) ≤ kp.score.getD 0) :
    (((KeypointSmoother.MAX_POSITION_JUMP : ℕ) : α) ^ 2 ≤
        KeypointSmoother.dist2 kp h.keypoint →
      (KeypointSmoother.smoothKp alpha m now kp).1 =
        { h.keypoint with score := some (max 0 (h.keypoint.score.getD 0 * (19 / 20))) }
      ∧ (KeypointSmoother.smoothKp alpha m now kp).2 = m)
    ∧ (KeypointSmoother.dist2 kp h.keypoint <
        ((KeypointSmoother.MAX_POSITION_JUMP : ℕ) : α) ^ 2 →
      (KeypointSmoother.smoothKp alpha m now kp).1 =
        KeypointSmoother.emitGate (KeypointSmoother.blendKeypoint alpha kp h.keypoint)
          (min (h.stabilityCount + 1) (KeypointSmoother.STABILITY_THRESHOLD + 5))
      ∧ KeypointSmoother.mapGet (KeypointSmoother.smoothKp alpha m now kp).2
          (KeypointSmoother.keyOf kp) =
        some { keypoint := KeypointSmoother.blendKeypoint alpha kp h.keypoint,
               timestamp := now,
               stabilityCount := min (h.stabilityCount + 1)
                 (KeypointSmoother.STABILITY_THRESHOLD + 5) }) := by
  have hc' : ¬ kp.score.getD 0 < KeypointSmoother.MIN_CONFIDENCE (α := α) :=
    not_lt.mpr hconf
  have hj := smoothKp_jump_cases alpha m now kp h hm hc'
  refine ⟨fun hfar => hj.1 (not_lt.mpr hfar), fun hnear => ⟨(hj.2 hnear).1, ?_⟩⟩
  rw [(hj.2 hnear).2]
  exact mapGet_mapSet_self _ _ _

/-- The prior entry used by the C4 boundary input: a joint at the origin
with confidence 0.9 and stability count 3. -/
def boundaryHist : KeypointSmoother.KeypointHistory ℚ :=
  ⟨⟨0, 0, some (9 / 10), some "k"⟩, 0, 3⟩

/-- A history map holding only `boundaryHist` under key "k". -/
def boundaryMap : KeypointSmoother.HistMap ℚ := [("k", boundaryHist)]

/-- A new detection of the same joint exactly 100 px away. -/
def boundaryKp : Keypoint ℚ := ⟨100, 0, some (9 / 10), some "k"⟩

/-- Counterexample for C4 as stated: at distance exactly 100 px the
distance does not exceed the threshold, yet the code rejects the jump —
it emits the prior position (0,0) with decayed confidence instead of the
blended point, and leaves history untouched. -/
theorem claim_C4_boundary_counterexample :
    ¬ (KeypointSmoother.dist2 boundaryKp boundaryHist.keypoint >
        ((KeypointSmoother.MAX_POSITION_JUMP : ℕ) : ℚ) ^ 2)
    ∧ (KeypointSmoother.smoothKp (3 / 10 : ℚ) boundaryMap 5 boundaryKp).1 =
        ⟨0, 0, some (171 / 200), some "k"⟩
    ∧ (KeypointSmoother.smoothKp (3 / 10 : ℚ) boundaryMap 5 boundaryKp).2 = boundaryMap
    ∧ (KeypointSmoother.smoothKp (3 / 10 : ℚ) boundaryMap 5 boundaryKp).1 ≠
        KeypointSmoother.emitGate
          (KeypointSmoother.blendKeypoint (3 / 10 : ℚ) boundaryKp boundaryHist.keypoint)
          (min (boundaryHist.stabilityCount + 1) (KeypointSmoother.STABILITY_THRESHOLD + 5)) := by
  have hm : KeypointSmoother.mapGet boundaryMap (KeypointSmoother.keyOf boundaryKp) =
      some boundaryHist := rfl
  have hconf : ¬ boundaryKp.score.getD 0 < KeypointSmoother.MIN_CONFIDENCE (α := ℚ) := by
    norm_num [KeypointSmoother.MIN_CONFIDENCE, boundaryKp]
  have hfar : ¬ KeypointSmoother.dist2 boundaryKp boundaryHist.keypoint <
      ((KeypointSmoother.MAX_POSITION_JUMP : ℕ) : ℚ) ^ 2 := by
    norm_num [KeypointSmoother.dist2, KeypointSmoother.MAX_POSITION_JUMP,
      boundaryKp, boundaryHist]
  have hj := (smoothKp_jump_cases (3 / 10 : ℚ) boundaryMap 5 boundaryKp boundaryHist
    hm hconf).1 hfar
  refine ⟨by norm_num [KeypointSmoother.dist2, KeypointSmoother.MAX_POSITION_JUMP,
      boundaryKp, boundaryHist],
    ?_, hj.2, ?_⟩
  · rw [hj.1]
    norm_num [boundaryHist]
  · rw [hj.1]
    intro heq
    have hx := congrArg Keypoint.x heq
    norm_num [KeypointSmoother.emitGate, KeypointSmoother.blendKeypoint,
      KeypointSmoother.adaptiveAlphaOf, KeypointSmoother.STABILITY_THRESHOLD,
      KeypointSmoother.RENDER_CONFIDENCE, boundaryHist, boundaryKp] at hx

/-- Witness for C4 at the boundary input: history present, confidence
0.9, squared distance equal to the squared threshold, so the rejection
half of the amended claim applies. -/
theorem claim_C4_witness :
    KeypointSmoother.mapGet boundaryMap (KeypointSmoother.keyOf boundaryKp) =
      some boundaryHist
    ∧ KeypointSmoother.MIN_CONFIDENCE (α := ℚ) ≤ boundaryKp.score.getD 0
    ∧ ((KeypointSmoother.MAX_POSITION_JUMP : ℕ) : ℚ) ^ 2 ≤
        KeypointSmoother.dist2 boundaryKp boundaryHist.keypoint
    ∧ ((KeypointSmoother.smoothKp (3 / 10 : ℚ) boundaryMap 5 boundaryKp).1 =
        { boundaryHist.keypoint with
            score := some (max 0 (boundaryHist.keypoint.score.getD 0 * (19 / 20))) }
      ∧ (KeypointSmoother.smoothKp (3 / 10 : ℚ) boundaryMap 5 boundaryKp).2 = boundaryMap) :=
  ⟨rfl, by norm_num [KeypointSmoother.MIN_CONFIDENCE, boundaryKp],
   by norm_num [KeypointSmoother.dist2, KeypointSmoother.MAX_POSITION_JUMP,
     boundaryKp, boundaryHist],
   (claim_C4_jump_rejection (3 / 10 : ℚ) boundaryMap 5 boundaryKp boundaryHist
     rfl (by norm_num [KeypointSmoother.MIN_CONFIDENCE, boundaryKp])).1
     (by norm_num [KeypointSmoother.dist2, KeypointSmoother.MAX_POSITION_JUMP,
       boundaryKp, boundaryHist])⟩

/-- C9: (no overshoot) whenever a tracked keypoint is re-detected at an
acceptable distance with confidence at or above the minimum threshold and
a clamped alpha, the emitted coordinate lies between the previous
smoothed coordinate and the input coordinate on each axis, the error
against the input contracting by the factor `1 - adaptiveAlpha`; and
(bounded convergence) feeding one identical keypoint repeatedly from a
fresh key stores the input position exactly from the first frame on. -/
theorem claim_C9_convergence_no_overshoot {α : Type} [LinearOrderedField α] [ToString α]
    (alpha : α) (m : KeypointSmoother.HistMap α) (now : ℤ) (kp : Keypoint α)
    (h0 : 0 ≤ alpha) (h1 : alpha ≤ 1)
    (hconf : KeypointSmoother.MIN_CONFIDENCE (α := α) ≤ kp.score.getD 0) :
    (∀ h, KeypointSmoother.mapGet m (KeypointSmoother.keyOf kp) = some h →
      KeypointSmoother.dist2 kp h.keypoint <
        ((KeypointSmoother.MAX_POSITION_JUMP : ℕ) : α) ^ 2 →
      (min h.keypoint.x kp.x ≤ (KeypointSmoother.smoothKp alpha m now kp).1.x
        ∧ (KeypointSmoother.smoothKp alpha m now kp).1.x ≤ max h.keypoint.x kp.x)
      ∧ (min h.keypoint.y kp.y ≤ (KeypointSmoother.smoothKp alpha m now kp).1.y
        ∧ (KeypointSmoother.smoothKp alpha m now kp).1.y ≤ max h.keypoint.y kp.y)
      ∧ (KeypointSmoother.smoothKp alpha m now kp).1.x - kp.x =
          (1 - KeypointSmoother.adaptiveAlphaOf alpha kp) * (h.keypoint.x - kp.x)
      ∧ (KeypointSmoother.smoothKp alpha m now kp).1.y - kp.y =
          (1 - KeypointSmoother.adaptiveAlphaOf alpha kp) * (h.keypoint.y - kp.y))
    ∧ (KeypointSmoother.mapGet m (KeypointSmoother.keyOf kp) = none →
      ∀ n, 1 ≤ n →
        ∃ h2, KeypointSmoother.mapGet (KeypointSmoother.feedRepeated alpha m now kp n)
            (KeypointSmoother.keyOf kp) = some h2
          ∧ h2.keypoint.x = kp.x ∧ h2.keypoint.y = kp.y) := by
  have hc' : ¬ kp.score.getD 0 < KeypointSmoother.MIN_CONFIDENCE (α := α) :=
    not_lt.mpr hconf
  constructor
  · intro h hm hnear
    have he := ((smoothKp_jump_cases alpha m now kp h hm hc').2 hnear).1
    have hb := blend_between alpha kp h.keypoint h0 h1
    rw [he, emitGate_x, emitGate_y]
    exact ⟨hb.1, hb.2.1, hb.2.2.1, hb.2.2.2⟩
  · intro hnone n hn
    exact feedRepeated_position alpha m now kp hnone hc' n hn

/-- Witness for C9: a fresh joint detected at (10, 20) with confidence
0.5 is stored at exactly (10, 20) after two identical frames. -/
theorem claim_C9_witness :
    (0 : ℚ) ≤ 3 / 10 ∧ (3 / 10 : ℚ) ≤ 1
    ∧ KeypointSmoother.MIN_CONFIDENCE (α := ℚ) ≤
        (⟨10, 20, some (1 / 2), some "k"⟩ : Keypoint ℚ).score.getD 0
    ∧ KeypointSmoother.mapGet ([] : KeypointSmoother.HistMap ℚ)
        (KeypointSmoother.keyOf (⟨10, 20, some (1 / 2), some "k"⟩ : Keypoint ℚ)) = none
    ∧ (1 : ℕ) ≤ 2
    ∧ (∃ h2, KeypointSmoother.mapGet
          (KeypointSmoother.feedRepeated (3 / 10 : ℚ) [] 0
            ⟨10, 20, some (1 / 2), some "k"⟩ 2)
          (KeypointSmoother.keyOf (⟨10, 20, some (1 / 2), some "k"⟩ : Keypoint ℚ)) = some h2
        ∧ h2.keypoint.x = (⟨10, 20, some (1 / 2), some "k"⟩ : Keypoint ℚ).x
        ∧ h2.keypoint.y = (⟨10, 20, some (1 / 2), some "k"⟩ : Keypoint ℚ).y) :=
  ⟨by norm_num, by norm_num,
   by norm_num [KeypointSmoother.MIN_CONFIDENCE],
   rfl, by decide,
   (claim_C9_convergence_no_overshoot (3 / 10 : ℚ) [] 0
     ⟨10, 20, some (1 / 2), some "k"⟩ (by norm_num) (by norm_num)
     (by norm_num [KeypointSmoother.MIN_CONFIDENCE])).2 rfl 2 (by decide)⟩

/-- C2: the count is incremented only out of the `down` state with a
smoothed angle above the shallow threshold and the debounce condition
satisfied; a crossing below the deep threshold followed by a crossing
above the shallow threshold with the debounce condition satisfied counts
exactly one repetition, and repeating the same crossing pattern within
the debounce window adds nothing. -/
theorem claim_C2_rep_increment {α : Type} [LinearOrderedField α] [FloorRing α] :
    (∀ (c : RepCounter α) (a : Option α) (t : ℤ),
      (RepCounter.updateWithAngle c a t).state.count ≠ c.state.count →
        c.exerciseType = .squat ∧ c.state.state = .down
        ∧ jgt (RepCounter.smoothedOf c a) (160 : α) = true
        ∧ RepCounter.DEBOUNCE_MS < t - c.state.lastRepTime)
    ∧ (∀ (c : RepCounter α) (a1 : Option α) (t1 : ℤ) (a2 : Option α) (t2 : ℤ),
        c.exerciseType = .squat →
        jlt (RepCounter.smoothedOf c a1) (90 : α) = true →
        jgt (RepCounter.smoothedOf (RepCounter.updateWithAngle c a1 t1) a2) (160 : α) = true →
        RepCounter.DEBOUNCE_MS < t2 - c.state.lastRepTime →
        ((RepCounter.updateWithAngle (RepCounter.updateWithAngle c a1 t1) a2 t2).state.count
            = c.state.count + 1
        ∧ (RepCounter.updateWithAngle (RepCounter.updateWithAngle c a1 t1) a2 t2).state.state
            = .up
        ∧ (RepCounter.updateWithAngle
            (RepCounter.updateWithAngle c a1 t1) a2 t2).state.lastRepTime = t2
        ∧ ∀ (a3 : Option α) (t3 : ℤ) (a4 : Option α) (t4 : ℤ),
            t4 - t2 ≤ RepCounter.DEBOUNCE_MS →
            (RepCounter.updateWithAngle (RepCounter.updateWithAngle
              (RepCounter.updateWithAngle (RepCounter.updateWithAngle c a1 t1) a2 t2)
              a3 t3) a4 t4).state.count = c.state.count + 1)) := by
  constructor
  · intro c a t hne
    rcases updateWithAngle_count_cases c a t with h | h
    · exact absurd h.1 hne
    · exact ⟨h.2.1, h.2.2.1, h.2.2.2.1, h.2.2.2.2.1⟩
  · intro c a1 t1 a2 t2 hex hlt hgt hdeb
    obtain ⟨hdown1, hcount1, hlast1⟩ := updateWithAngle_down c a1 t1 hex hlt
    have hex1 : (RepCounter.updateWithAngle c a1 t1).exerciseType = ExerciseType.squat := by
      rw [updateWithAngle_exercise]
      exact hex
    obtain ⟨hcount2, hstate2, hlast2⟩ :=
      updateWithAngle_rep (RepCounter.updateWithAngle c a1 t1) a2 t2 hex1 hdown1 hgt
        (by rw [hlast1]; exact hdeb)
    refine ⟨by rw [hcount2, hcount1], hstate2, hlast2, ?_⟩
    intro a3 t3 a4 t4 hdeb4
    have h3' : (RepCounter.updateWithAngle (RepCounter.updateWithAngle
          (RepCounter.updateWithAngle c a1 t1) a2 t2) a3 t3).state.count =
        c.state.count + 1
        ∧ (RepCounter.updateWithAngle (RepCounter.updateWithAngle
          (RepCounter.updateWithAngle c a1 t1) a2 t2) a3 t3).state.lastRepTime = t2 := by
      rcases updateWithAngle_count_cases
        (RepCounter.updateWithAngle (RepCounter.updateWithAngle c a1 t1) a2 t2) a3 t3 with
        h | h
      · exact ⟨by rw [h.1, hcount2, hcount1], by rw [h.2, hlast2]⟩
      · rw [hstate2] at h
        exact absurd h.2.2.1 (by decide)
    rcases updateWithAngle_count_cases
      (RepCounter.updateWithAngle (RepCounter.updateWithAngle
        (RepCounter.updateWithAngle c a1 t1) a2 t2) a3 t3) a4 t4 with h | h
    · rw [h.1, h3'.1]
    · exfalso
      have hd := h.2.2.2.2.1
      rw [h3'.2] at hd
      exact absurd hd (not_lt.mpr hdeb4)

/-- Witness for C2: a fresh squat counter fed smoothed angles 0 (down)
then 180 (up) at 1000 ms and 1400 ms counts one rep; repeating the
crossing at 1500 ms and 1600 ms — inside the 300 ms debounce window —
adds nothing. -/
theorem claim_C2_witness :
    jlt (RepCounter.smoothedOf (RepCounter.init (α := ℚ) .squat 0) (some 0)) (90 : ℚ) = true
    ∧ jgt (RepCounter.smoothedOf
        (RepCounter.updateWithAngle (RepCounter.init (α := ℚ) .squat 0) (some 0) 1000)
        (some 360)) (160 : ℚ) = true
    ∧ RepCounter.DEBOUNCE_MS < 1400 - (RepCounter.init (α := ℚ) .squat 0).state.lastRepTime
    ∧ (RepCounter.updateWithAngle
        (RepCounter.updateWithAngle (RepCounter.init (α := ℚ) .squat 0) (some 0) 1000)
        (some 360) 1400).state.count = 1
    ∧ (RepCounter.updateWithAngle (RepCounter.updateWithAngle
        (RepCounter.updateWithAngle
          (RepCounter.updateWithAngle (RepCounter.init (α := ℚ) .squat 0) (some 0) 1000)
          (some 360) 1400)
        (some (-360)) 1500) (some 600) 1600).state.count = 1 := by
  have h1 : jlt (RepCounter.smoothedOf (RepCounter.init (α := ℚ) .squat 0) (some 0))
      (90 : ℚ) = true := by
    norm_num [RepCounter.smoothedOf, RepCounter.smoothAngle, RepCounter.SMOOTHING_WINDOW,
      RepCounter.init, jsum, jadd, jdivNat, jlt, List.foldl]
  have h2 : jgt (RepCounter.smoothedOf
      (RepCounter.updateWithAngle (RepCounter.init (α := ℚ) .squat 0) (some 0) 1000)
      (some 360)) (160 : ℚ) = true := by
    simp only [RepCounter.smoothedOf, updateWithAngle_history]
    norm_num [RepCounter.smoothAngle, RepCounter.SMOOTHING_WINDOW, RepCounter.init,
      jsum, jadd, jdivNat, jgt, List.foldl]
  have h3 : RepCounter.DEBOUNCE_MS <
      1400 - (RepCounter.init (α := ℚ) .squat 0).state.lastRepTime := by decide
  obtain ⟨hc, hs, hl, hrest⟩ :=
    (claim_C2_rep_increment (α := ℚ)).2 (RepCounter.init .squat 0) (some 0) 1000
      (some 360) 1400 rfl h1 h2 h3
  exact ⟨h1, h2, h3, hc, hrest (some (-360)) 1500 (some 600) 1600 (by decide)⟩
